import Mathlib

/-!
# Verification of the process scheduler and virtual-memory subsystem

A shallow embedding, in Lean 4, of the core selected by the specification of
this bare-metal ARM64 kernel: the round-robin `Scheduler` over `Process`es
(`kern/src/process/scheduler.rs`, `kern/src/process/process.rs`) and the
two-level page-table manager (`kern/src/vm/pagetable.rs`), together with
theorems settling the specification's claims about them.

Conventions of the embedding:
* Machine integers (`u64`, `usize`) are modelled as `Nat`; bit masking from the
  source is written out as explicit `%` / `-` arithmetic where it matters.
* Rust panics are modelled as an explicit `PanicReason` error in an `Except`;
  fallible Rust functions returning `Result`/`Option` are likewise `Except`
  or `Option` valued.
* `&mut` state threading is made explicit: a Rust method `fn f(&mut self, x)`
  with result `r` becomes a Lean function producing the result together with
  the updated receiver (and any other mutated arguments).
-/

set_option autoImplicit false

namespace Kern

/-! ## Trap frames (`kern/src/traps/frame.rs`)

`TrapFrame` is the `#[repr(C)]` register snapshot.  All fields are `u64`
(`q` holds `u128` SIMD registers), modelled as `Nat`; the banks `q` and `x`
are lists of length 32 and 30.  `Default` zeroes every field.  The private
padding field `_xzr` is rendered `xzr`. -/

structure TrapFrame where
  ELR : Nat := 0
  SPSR : Nat := 0
  SP : Nat := 0
  TPIDR : Nat := 0
  TTBR0 : Nat := 0
  TTBR1 : Nat := 0
  q : List Nat := List.replicate 32 0
  x : List Nat := List.replicate 30 0
  lr : Nat := 0
  xzr : Nat := 0
deriving DecidableEq, Repr, Inhabited

/-- Type alias for the type of a process ID (`kern/src/process/process.rs`:
`pub type Id = u64`).  Ids are modelled as unbounded naturals; the spec (§9)
explicitly declares ids "unbounded in this design" and leaves `u64`
wraparound an open question outside the claims. -/
abbrev Id := Nat

/-! ## Process state

Modelled from the spec: the `State` enum itself lives in
`kern/src/process/state.rs`, which is not among the sources; §3 of the spec
fixes it as a sum type `Ready | Running | Waiting(poll) | Dead` where the
stored poll function receives mutable access to the process.  Lean's strict
positivity rules out a constructor holding `Process → Bool × Process`
(`Process` contains a `State`), so the poll function is modelled as acting on
the process's trap frame — the mutable process data it can observe and
update.  (During the call the process's `state` field reads `Ready` because
of the `mem::replace` in `Process::is_ready`, and a write to it by the poll
is clobbered on the `false` branch, so this captures the behaviour the
claims are about.) -/

inductive State where
  /-- The process is ready to be scheduled. -/
  | Ready : State
  /-- The process is currently running. -/
  | Running : State
  /-- The process is waiting on an event (the stored event poll function). -/
  | Waiting (poll : TrapFrame → Bool × TrapFrame) : State
  /-- The process is dead. -/
  | Dead : State

/-- A constructor tag for `State`, used to observe the (not decidably
equal) state of concrete processes in theorems. -/
def State.tag : State → Nat
  | .Ready => 0
  | .Running => 1
  | .Waiting _ => 2
  | .Dead => 3

/-! ## Processes (`kern/src/process/process.rs`)

`Process` owns `context: Box<TrapFrame>`, `stack: Stack`, `vmap:
Box<UserPageTable>` and `state: State`.  The scheduler and `is_ready` only
ever read or write `context` and `state`; the `stack` and `vmap` resource
fields are memory allocations irrelevant to (and never inspected by) the
scheduling claims, so the scheduling model carries the two fields the code
under proof manipulates.  (The page-table side of a process is modelled
separately below for the virtual-memory claims.) -/

structure Process where
  /-- The saved trap frame of a process. -/
  context : TrapFrame
  /-- The scheduling state of the process. -/
  state : State

/-- Model of `Process::is_ready(&mut self) -> bool`, from `process.rs`:

```rust
let mut state = mem::replace(&mut self.state, State::Ready);
match state {
    State::Ready => true,
    State::Waiting(ref mut event_poll_fn) => {
        if event_poll_fn(self) { true } else { self.state = state; false }
    }
    _ => { self.state = state; false }
}
```

The result is the returned `bool` together with the (possibly mutated)
process. -/
def Process.is_ready (p : Process) : Bool × Process :=
  let state := p.state
  let p1 : Process := { p with state := .Ready }
  match state with
  | .Ready => (true, p1)
  | .Waiting poll =>
      let r := poll p1.context
      let p2 : Process := { p1 with context := r.2 }
      if r.1 then (true, p2)
      else (false, { p2 with state := .Waiting poll })
  | s => (false, { p1 with state := s })

/-! ## The scheduler (`kern/src/process/scheduler.rs`)

`Scheduler` holds `processes: VecDeque<Process>` (front = head of the list)
and `last_id: Option<Id>`. -/

structure Scheduler where
  processes : List Process
  last_id : Option Id

/-- Model of `Scheduler::new()`. -/
def Scheduler.new : Scheduler :=
  { processes := [], last_id := none }

/-- Model of `Scheduler::add`:

```rust
let new_id = self.last_id.unwrap_or(0) + 1;
self.last_id = Some(new_id);
let mut tf = &mut process.context;
tf.TPIDR = new_id;
self.processes.push_back(process);
Some(new_id)
```
-/
def Scheduler.add (s : Scheduler) (process : Process) : Option Id × Scheduler :=
  let new_id := s.last_id.getD 0 + 1
  (some new_id,
    { processes :=
        s.processes ++ [{ process with context := { process.context with TPIDR := new_id } }],
      last_id := some new_id })

/-- Model of `Scheduler::schedule_out(new_state, tf)`:

```rust
match self.processes.pop_front() {
    None => false,
    Some(mut old_process) => {
        old_process.state = new_state;
        old_process.context = Box::new(*tf);
        self.processes.push_back(old_process);
        true
    }
}
```
-/
def Scheduler.schedule_out (s : Scheduler) (new_state : State) (tf : TrapFrame) :
    Bool × Scheduler :=
  match s.processes with
  | [] => (false, s)
  | p :: rest =>
      (true, { s with processes := rest ++ [{ p with state := new_state, context := tf }] })

/-- Model of `VecDeque::swap_remove_front(i)` from the Rust standard library, as used
by `Scheduler::switch_to`: removes and returns the element at index `i`
after swapping it with the front element (so the old front takes index `i`),
returning `None` when `i` is out of bounds. -/
def swap_remove_front {α : Type} : List α → Nat → Option (α × List α)
  | [], _ => none
  | x :: xs, i =>
      if h : i < (x :: xs).length then some ((x :: xs).get ⟨i, h⟩, ((x :: xs).set i x).tail)
      else none

/-- The `while let Some(mut process) = self.processes.swap_remove_front(i)`
loop of `Scheduler::switch_to`:

```rust
let mut i = 0;
while let Some(mut process) = self.processes.swap_remove_front(i) {
    if process.is_ready() {
        process.state = State::Running;
        *tf = *process.context;
        let id = process.context.TPIDR;
        self.processes.push_front(process);
        return Some(id);
    }
    self.processes.push_front(process);
    i += 1;
}
return None;
```

The `fuel` argument is a harness artifact making the recursion structural
(the Rust loop terminates because `i` strictly increases while the queue
length stays fixed); every use supplies fuel at least `queue length + 1 - i`,
which the characterization lemmas below show is enough.  The result is the
returned `Option<Id>` paired with the trap frame written through `*tf = ...`
on success, plus the final queue. -/
def Scheduler.switch_to_loop : Nat → List Process → Nat →
    (Option (Id × TrapFrame)) × List Process
  | 0, ps, _ => (none, ps)
  | fuel + 1, ps, i =>
      match swap_remove_front ps i with
      | none => (none, ps)
      | some (p, rest) =>
          let r := p.is_ready
          if r.1 then
            let p2 : Process := { r.2 with state := .Running }
            (some (p2.context.TPIDR, p2.context), p2 :: rest)
          else
            Scheduler.switch_to_loop fuel (r.2 :: rest) (i + 1)

/-- Model of `Scheduler::switch_to(tf)`.  Returns the `Option<Id>` result, the updated
scheduler, and the (possibly overwritten) caller trap frame. -/
def Scheduler.switch_to (s : Scheduler) (tf : TrapFrame) :
    Option Id × Scheduler × TrapFrame :=
  match Scheduler.switch_to_loop (s.processes.length + 1) s.processes 0 with
  | (some (id, tf2), ps) => (some id, { s with processes := ps }, tf2)
  | (none, ps) => (none, { s with processes := ps }, tf)

/-! ### Characterizing `switch_to`

`switch_to`'s `swap_remove_front`/`push_front` loop examines the queue
entries in their original front-to-back order, each exactly once.  The
reference scan `scanSpec` makes that explicit: it walks the queue once from
the front, returning the (possibly mutated by `is_ready`) not-ready prefix
together with the first ready process (mutated, not yet marked `Running`)
and the untouched suffix. -/

/-- One front-to-back readiness scan of a queue: the examined not-ready
prefix (in original order, after their `is_ready` mutations), and the first
ready process with the unexamined suffix, if any. -/
def scanSpec : List Process → List Process × Option (Process × List Process)
  | [] => ([], none)
  | p :: rest =>
      let r := p.is_ready
      if r.1 then ([], some (r.2, rest))
      else
        let t := scanSpec rest
        (r.2 :: t.1, t.2)

/-- The permutation `rotateLast l` moves the last element of `l` to the front (identity on
`[]`).  This is the net queue permutation left by an exhausted
`switch_to` scan. -/
def rotateLast {α : Type} (l : List α) : List α :=
  l.getLast?.toList ++ l.dropLast

/-- Repeated `Scheduler::add` — the spec's "sequence of `add` calls" on one
scheduler, returning the list of returned ids and the final scheduler. -/
def Scheduler.add_all : Scheduler → List Process → List (Option Id) × Scheduler
  | s, [] => ([], s)
  | s, p :: rest =>
      let r := s.add p
      let t := Scheduler.add_all r.2 rest
      (r.1 :: t.1, t.2)

/-- One `switch_to` / `schedule_out(Ready)` cycle, as in the spec's
round-robin scenarios (§8): the trap frame that `switch_to` wrote is the one
handed to the following `schedule_out`, mirroring the single CPU-bound trap
frame shared by both calls. -/
def Scheduler.cycle (s : Scheduler) (tf : TrapFrame) : Option Id × Scheduler × TrapFrame :=
  match s.switch_to tf with
  | (some id, s2, tf2) => (some id, (s2.schedule_out .Ready tf2).2, tf2)
  | (none, s2, tf2) => (none, s2, tf2)

/-- Iterated scheduling cycles, collecting the ids `switch_to` returned. -/
def Scheduler.run_cycles : Nat → Scheduler → TrapFrame → List (Option Id)
  | 0, _, _ => []
  | n + 1, s, tf =>
      let c := s.cycle tf
      c.1 :: Scheduler.run_cycles n c.2.1 c.2.2

/-- Modelled from the spec: the `schedule_out` behaviour claim C1 describes —
locate the queue entry whose stored trap-frame `TPIDR` equals `tf.TPIDR`
(not merely the front entry), overwrite its trap frame with `tf`, set its
state, move it to the back.  Used only to exhibit how the code diverges
from the claim. -/
def Scheduler.schedule_out_claimed (s : Scheduler) (new_state : State) (tf : TrapFrame) :
    Bool × Scheduler :=
  match s.processes.findIdx? (fun p => p.context.TPIDR == tf.TPIDR) with
  | some i =>
      match s.processes.get? i with
      | some p =>
          (true,
            { s with processes :=
                s.processes.eraseIdx i ++ [{ p with state := new_state, context := tf }] })
      | none => (false, s)
  | none => (false, s)

/-- Modelled from the spec: the `switch_to` scan claim C2 describes — pop
the front process; if not ready push it to the *back* and continue, at most
queue-length iterations; `none` when the scan exhausts.  Used only to
exhibit how the code diverges from the claim. -/
def switch_to_back_claimed : Nat → Scheduler → TrapFrame → Option Id × Scheduler × TrapFrame
  | 0, s, tf => (none, s, tf)
  | n + 1, s, tf =>
      match s.processes with
      | [] => (none, s, tf)
      | p :: rest =>
          let r := p.is_ready
          if r.1 then
            let p2 : Process := { r.2 with state := .Running }
            (some p2.context.TPIDR, { s with processes := p2 :: rest }, p2.context)
          else
            switch_to_back_claimed n { s with processes := rest ++ [r.2] } tf

/-- Entry point of `switch_to_back_claimed`: the scan is "bounded by the
queue length". -/
def Scheduler.switch_to_claimed (s : Scheduler) (tf : TrapFrame) :
    Option Id × Scheduler × TrapFrame :=
  switch_to_back_claimed s.processes.length s tf

/-- Test fixture: a process with the given `TPIDR` and state (all other
trap-frame fields zeroed, as `TrapFrame::default()` produces). -/
def proc (id : Nat) (st : State) : Process :=
  { context := { TPIDR := id }, state := st }

/-- The processes `ps` as `Scheduler::add` stamps and appends them when the
last assigned id was `b` (`0` for a fresh scheduler): each process in order,
its trap-frame `TPIDR` overwritten with the next id. -/
def stamp (b : Nat) : List Process → List Process
  | [] => []
  | p :: rest =>
      { p with context := { p.context with TPIDR := b + 1 } } :: stamp (b + 1) rest

/-- The ids `n` consecutive `add` calls return when the last assigned id was
`b`: `some (b+1), some (b+2), ...` — `add` never fails. -/
def ids_from (b : Nat) : Nat → List (Option Id)
  | 0 => []
  | n + 1 => some (b + 1) :: ids_from (b + 1) n

/-! ## Virtual memory (`kern/src/vm/pagetable.rs`)

Constants: `PAGE_SIZE`, `USER_IMG_BASE` and `USER_MAX_VM_SIZE` live in
`kern/src/param.rs`, which is not among the sources.  Modelled from the
spec: a 64 KiB page granule with 8192-entry L2/L3 tables (§3), a fixed
user-image virtual base, and a per-process virtual address range covered
exactly by the page table's two L3 tables (§3: "a fixed small array of L3
tables (enough to cover the supported per-process virtual address range)"),
i.e. `2 * 8192 * 65536 = 2^30` bytes.  The claims depend only on these
relationships, not on the absolute base value.  `IO_BASE` and `IO_BASE_END`
are from `lib/pi/src/common.rs` (in the sources). -/

def PAGE_SIZE : Nat := 65536
def USER_IMG_BASE : Nat := 0xFFFFFFFFC0000000
def USER_MAX_VM_SIZE : Nat := 0x40000000

/-- The address where I/O peripherals are mapped to
(`lib/pi/src/common.rs`). -/
def IO_BASE : Nat := 0xFE000000
def IO_BASE_END : Nat := 0x100000000

/-! Field values for page-table descriptors.  Modelled from the spec: the
`RawL2Entry`/`RawL3Entry` bit layout and the `EntryPerm`/`EntrySh`/
`EntryAttr`/`EntryType` constants live in the `aarch64` support crate's
`vmsa.rs`, which is not among the sources.  The spec (§3, §4.2) fixes an L3
entry as valid bit + physical address + access flag + shareability +
memory-attribute + permission fields; the numeric values below are the
ARMv8-A encodings (AP[2:1]: kernel/user × read-write/read-only; SH:
inner/outer shareable; ATTR: MAIR index 0 = normal memory, 1 = device).
Only their distinctness matters to the claims. -/

namespace EntryPerm

def KERN_RW : Nat := 0b00
def USER_RW : Nat := 0b01
def KERN_RO : Nat := 0b10
def USER_RO : Nat := 0b11

end EntryPerm

namespace EntrySh

def OSh : Nat := 0b10
def ISh : Nat := 0b11

end EntrySh

namespace EntryAttr

def Mem : Nat := 0
def Dev : Nat := 1

end EntryAttr

namespace EntryType

def Table : Nat := 1

end EntryType

/-- The mask `a & 0xFFFF_FFFF_0000`: the masking `set_masked(addr, RawL3Entry::ADDR)`
performs when storing a physical address into the `ADDR` field (bits 47:16),
written arithmetically. -/
def mask_addr (a : Nat) : Nat := a % 0x1000000000000 - a % 0x10000

/-- A raw L3 descriptor as a record of its fields (the source packs them
into a `u64`; field reads and writes go through `get_value`/`set_value`/
`set_bit`/`set_masked`, which this record models directly).  `ADDR` holds
the already-masked physical address, as stored. -/
structure RawL3Entry where
  ADDR : Nat := 0
  AF : Nat := 0
  SH : Nat := 0
  AP : Nat := 0
  ATTR : Nat := 0
  TYPE : Nat := 0
  VALID : Nat := 0
deriving DecidableEq, Repr, Inhabited

/-- Model of `pub struct L3Entry(RawL3Entry)`. -/
structure L3Entry where
  raw : RawL3Entry
deriving DecidableEq, Repr, Inhabited

/-- Model of `L3Entry::new(0)`: the all-zero (invalid) entry. -/
def L3Entry.new : L3Entry := ⟨{}⟩

/-- Model of `L3Entry::is_valid`: `self.0.get_value(RawL3Entry::VALID) > 0`. -/
def L3Entry.is_valid (e : L3Entry) : Bool := e.raw.VALID > 0

/-- Model of `L3Entry::get_page_addr`: the masked `ADDR` field if valid, else
`None`. -/
def L3Entry.get_page_addr (e : L3Entry) : Option Nat :=
  if e.is_valid then some e.raw.ADDR else none

/-- The distinct panic sites of the page-table/loader code, plus the one
I/O error (`ioerr!(InvalidInput, ...)`) of `fat32`'s `File::read`. -/
inductive PanicReason where
  | l2IndexOutOfRange : PanicReason
  | unaligned : PanicReason
  | indexOutOfBounds : PanicReason
  | belowImageBase : PanicReason
  | alreadyMapped : PanicReason
  | allocFailed : PanicReason
  | readPastEnd : PanicReason
deriving DecidableEq, Repr

/-- Model of `pub struct PageTable { l2: L2PageTable, l3: [L3PageTable; 2] }`,
modelled by its array of L3 tables (each `L3PageTable` is its 8192 `entries`).
The `l2` table's two initialized entries hold the machine addresses of the
L3 tables plus attribute bits — raw pointers with no counterpart in the
model; no claim inspects them. -/
structure PageTable where
  l3 : List (List L3Entry)
deriving DecidableEq, Repr

/-- Model of `PageTable::new(perm)`: two fresh all-invalid 8192-entry L3 tables.
The `perm` argument only flows into the (unmodelled) L2 descriptors. -/
def PageTable.new (_perm : Nat) : PageTable :=
  { l3 := [List.replicate 8192 L3Entry.new, List.replicate 8192 L3Entry.new] }

/-- Bits 41:29 of a virtual address, `(raw_address & L2_INDEX_MASK) >> 29` of a virtual
address. -/
def l2_index (va : Nat) : Nat := va / 0x20000000 % 0x2000

/-- Bits 28:16 of a virtual address, `(raw_address & L3_INDEX_MASK) >> 16` of a virtual
address. -/
def l3_index (va : Nat) : Nat := va / 0x10000 % 0x2000

/-- Model of `PageTable::locate(va)`:

```rust
let l2index = (raw_address & L2_INDEX_MASK) >> 29;   // bits 41:29
let l3index = (raw_address & L3_INDEX_MASK) >> 16;   // bits 28:16
if l2index > 2 { panic!("l2_index > 8: {}", l2index); }
let first_bits = raw_address & 0xFFFF;
if first_bits != 0 { panic!("virtual address is not aligned ..."); }
return (l2index as usize, l3index as usize);
```

(`&self` is unused by the source body.) -/
def PageTable.locate (_self : PageTable) (va : Nat) : Except PanicReason (Nat × Nat) :=
  if l2_index va > 2 then .error .l2IndexOutOfRange
  else if va % 0x10000 ≠ 0 then .error .unaligned
  else .ok (l2_index va, l3_index va)

/-- The L3 entry at `(l2_index, l3_index)`, or `none` when the indices fall
outside the table — the situation in which the source's
`self.l3[l2index].entries[l3index]` indexing panics. -/
def PageTable.get_entry (pt : PageTable) (l2i l3i : Nat) : Option L3Entry :=
  (pt.l3.get? l2i).bind (fun t => t.get? l3i)

/-- Model of `PageTable::is_valid(va)` (the panics of `locate` and of the array
indexing propagate). -/
def PageTable.is_valid (pt : PageTable) (va : Nat) : Except PanicReason Bool := do
  let idx ← pt.locate va
  match pt.get_entry idx.1 idx.2 with
  | some e => .ok e.is_valid
  | none => .error .indexOutOfBounds

/-- Model of `PageTable::set_entry(va, entry)` (again with the indexing panic made
explicit). -/
def PageTable.set_entry (pt : PageTable) (va : Nat) (entry : RawL3Entry) :
    Except PanicReason PageTable := do
  let idx ← pt.locate va
  match pt.l3.get? idx.1 with
  | some t =>
      match t.get? idx.2 with
      | some _ => .ok { pt with l3 := pt.l3.set idx.1 (t.set idx.2 ⟨entry⟩) }
      | none => .error .indexOutOfBounds
  | none => .error .indexOutOfBounds

/-- The `IntoIterator for &PageTable` iteration order:
`self.l3.iter().flat_map(|l| l.entries.iter())` — every L3 entry, table
order then slot order. -/
def PageTable.entries (pt : PageTable) : List L3Entry := pt.l3.flatten

/-- The number of valid L3 entries of a table. -/
def PageTable.valid_count (pt : PageTable) : Nat :=
  (pt.entries.filter (fun e => e.is_valid)).length

/-- Modelled from the spec: the physical ("bin") allocator, an external
collaborator (§1, §6) consumed as `alloc(size, align) -> address-or-null` /
`dealloc(address, ...)`, with a free-page count (§8).  Represented by its
list of free page addresses: `alloc` hands out the first one (`0` — null —
when exhausted), `dealloc` returns one. -/
structure AllocState where
  freeList : List Nat
deriving DecidableEq, Repr

/-- Model of `ALLOCATOR.alloc(Page::layout())`: next free page address, or 0 (null)
when exhausted. -/
def AllocState.alloc : AllocState → Nat × AllocState
  | ⟨[]⟩ => (0, ⟨[]⟩)
  | ⟨a :: rest⟩ => (a, ⟨rest⟩)

/-- Model of `ALLOCATOR.dealloc(addr, Page::layout())`. -/
def AllocState.dealloc (st : AllocState) (addr : Nat) : AllocState :=
  ⟨addr :: st.freeList⟩

/-- The allocator's free-page count. -/
def AllocState.freeCount (st : AllocState) : Nat := st.freeList.length

/-- Model of `pub enum PagePerm { RW, RO, RWX }`. -/
inductive PagePerm where
  | RW : PagePerm
  | RO : PagePerm
  | RWX : PagePerm
deriving DecidableEq, Repr

/-- Modelled from the spec (§4.2): "the requested permission class mapped
onto the hardware access-permission encoding".  The AP field encodes
kernel/user × read-write/read-only; it has no execute bit (execute rights
live in separate XN bits), so both user-writable classes map to `USER_RW`
while `RO` maps to `USER_RO`. -/
def spec_perm_ap : PagePerm → Nat
  | .RW => EntryPerm.USER_RW
  | .RWX => EntryPerm.USER_RW
  | .RO => EntryPerm.USER_RO

/-- Model of `pub struct UserPageTable(Box<PageTable>)`. -/
structure UserPageTable where
  table : PageTable
deriving DecidableEq, Repr

/-- Model of `UserPageTable::new()`. -/
def UserPageTable.new : UserPageTable := ⟨PageTable.new EntryPerm.USER_RW⟩

/-- The entry-construction block of `UserPageTable::alloc`:

```rust
let mut entry = RawL3Entry::new(0);
entry.set_masked(addr as u64, RawL3Entry::ADDR);
entry.set_bit(RawL3Entry::AF);
entry.set_value(EntrySh::ISh, RawL3Entry::SH);
entry.set_value(EntryPerm::USER_RW, RawL3Entry::AP);
entry.set_value(EntryAttr::Mem, RawL3Entry::ATTR);
entry.set_value(EntryType::Table, RawL3Entry::TYPE);
entry.set_bit(RawL3Entry::VALID);
```
-/
def UserPageTable.build_entry (addr : Nat) : RawL3Entry :=
  { ADDR := mask_addr addr, AF := 1, SH := EntrySh.ISh, AP := EntryPerm.USER_RW,
    ATTR := EntryAttr.Mem, TYPE := EntryType.Table, VALID := 1 }

/-- Model of `UserPageTable::alloc(va, _perm)`: panics encoded as errors; on success
returns the allocated physical page address (standing for the returned
`&mut [u8]` slice over that page), the updated table and allocator.  The
permission argument is `_perm` — unused — exactly as in the source
(`// TODO. use perm properly`). -/
def UserPageTable.alloc (upt : UserPageTable) (st : AllocState) (va : Nat)
    (_perm : PagePerm) : Except PanicReason (Nat × UserPageTable × AllocState) :=
  if va < USER_IMG_BASE then .error .belowImageBase
  else
    let va_offset := va - USER_IMG_BASE
    do
      let valid ← upt.table.is_valid va_offset
      if valid then .error .alreadyMapped
      else
        let r := AllocState.alloc st
        if r.1 = 0 then .error .allocFailed
        else do
          let t2 ← upt.table.set_entry va_offset (UserPageTable.build_entry r.1)
          .ok (r.1, ⟨t2⟩, r.2)

/-- Model of `impl Drop for UserPageTable`:

```rust
for entry in self.0.into_iter() {
    if entry.is_valid() {
        let addr = entry.get_page_addr().unwrap();
        unsafe { ALLOCATOR.dealloc(addr.as_u64() as *mut u8, Page::layout()); }
    }
}
```

The result is the final allocator state together with the trace of the
addresses passed to `dealloc`, in call order. -/
def drop_step (acc : AllocState × List Nat) (e : L3Entry) : AllocState × List Nat :=
  if e.is_valid then
    match e.get_page_addr with
    | some addr => (acc.1.dealloc addr, acc.2 ++ [addr])
    | none => acc
  else acc

def UserPageTable.drop_dealloc (upt : UserPageTable) (st : AllocState) :
    AllocState × List Nat :=
  upt.table.entries.foldl drop_step (st, [])

/-- A sequence of `UserPageTable::alloc` calls — the spec's "mapping N
pages" test scenario (§8) — threading table and allocator. -/
def UserPageTable.alloc_list : List Nat → UserPageTable → AllocState →
    Except PanicReason (UserPageTable × AllocState)
  | [], upt, st => .ok (upt, st)
  | va :: rest, upt, st => do
      let r ← upt.alloc st va PagePerm.RW
      UserPageTable.alloc_list rest r.2.1 r.2.2

/-- The per-page entry-construction block of `KernPageTable::new` (identity
`ADDR`, access flag, kernel read/write, valid; device attributes and outer
shareability for addresses in `IO_BASE ..= IO_BASE_END`, normal memory and
inner shareability otherwise). -/
def KernPageTable.build_entry (addr : Nat) : RawL3Entry :=
  if IO_BASE ≤ addr ∧ addr ≤ IO_BASE_END then
    { ADDR := mask_addr addr, AF := 1, AP := EntryPerm.KERN_RW, TYPE := EntryType.Table,
      VALID := 1, SH := EntrySh.OSh, ATTR := EntryAttr.Dev }
  else
    { ADDR := mask_addr addr, AF := 1, AP := EntryPerm.KERN_RW, TYPE := EntryType.Table,
      VALID := 1, SH := EntrySh.ISh, ATTR := EntryAttr.Mem }

/-- The addresses visited by `for addr in (0..end_address).step_by(PAGE_SIZE)`. -/
def KernPageTable.page_addrs (end_address : Nat) : List Nat :=
  (List.range ((end_address + PAGE_SIZE - 1) / PAGE_SIZE)).map (· * PAGE_SIZE)

/-- Model of `KernPageTable::new()`.  The source reads the walk's end from
`allocator::memory_map()` (`kern/src/allocator/mod.rs`, not among the
sources); modelled from the spec, `end_address` is "the end of usable RAM
as reported by the physical allocator" and is taken as a parameter.  The
source wraps the resulting table in `KernPageTable(Box<PageTable>)`; a
`set_entry` panic anywhere in the walk aborts construction. -/
def KernPageTable.new (end_address : Nat) : Except PanicReason PageTable :=
  (KernPageTable.page_addrs end_address).foldlM
    (fun pt addr => pt.set_entry addr (KernPageTable.build_entry addr))
    (PageTable.new EntryPerm.KERN_RW)

/-- Checker for claim C9: a completed `KernPageTable::new` has no valid
entry mapping a physical address in the I/O range, and every entry carries
normal-memory, inner-shareable, kernel-read/write attributes (the device
branch never fires). -/
def kern_entries_clear (r : Except PanicReason PageTable) : Bool :=
  match r with
  | .error _ => true
  | .ok pt =>
      pt.entries.all fun e =>
        !e.is_valid ||
          ((decide (e.raw.ADDR < IO_BASE) || decide (IO_BASE_END < e.raw.ADDR)) &&
            decide (e.raw.ATTR = EntryAttr.Mem) && decide (e.raw.SH = EntrySh.ISh) &&
            decide (e.raw.AP = EntryPerm.KERN_RW))

/-- Sample checker for claim C9 (non-vacuity): a two-page walk completes and
produces the expected identity entries in slots (0,0) and (0,1), with slot
(0,2) left invalid. -/
def kern_sample_check (r : Except PanicReason PageTable) : Bool :=
  match r with
  | .error _ => false
  | .ok pt =>
      decide (pt.get_entry 0 0 = some ⟨KernPageTable.build_entry 0⟩) &&
        decide (pt.get_entry 0 1 = some ⟨KernPageTable.build_entry PAGE_SIZE⟩) &&
        decide ((pt.get_entry 0 2).map L3Entry.is_valid = some false)

/-! ## Program loading (`Process::do_load`, `kern/src/process/process.rs`)

The filesystem side: `(&FILESYSTEM).open(pn)` / `entry.into_file()` are the
external filesystem capability; the file itself follows `fat32`'s
`File::read` (`lib/fat32/src/vfat/file.rs`, in the sources), which fills
`min(buf.len(), size - pos)` bytes of the buffer and returns that count
(`Ok(0)` at end of file, `InvalidInput` past it; the cluster-chain `data`
covers the file's `size` bytes for an intact file). -/

structure File where
  size : Nat
  pos : Nat := 0
deriving DecidableEq, Repr

/-- Model of the `fat32` `File::read` on a buffer of length `buf_len`: the returned byte
count and the advanced file. -/
def File.read (f : File) (buf_len : Nat) : Except PanicReason (Nat × File) :=
  if f.pos = f.size then .ok (0, f)
  else if f.pos > f.size then .error .readPastEnd
  else
    let len := min buf_len (f.size - f.pos)
    .ok (len, { f with pos := f.pos + len })

/-- Model of `Process::get_max_va()`:
`VirtualAddr::from(USER_MAX_VM_SIZE - 1) + Process::get_image_base()`. -/
def Process.get_max_va : Nat := USER_MAX_VM_SIZE - 1 + USER_IMG_BASE

/-- Model of `Process::get_stack_base()`:
`(get_max_va() - PAGE_SIZE + 1) & !(PAGE_SIZE - 1)` (align down). -/
def Process.get_stack_base : Nat :=
  (Process.get_max_va - PAGE_SIZE + 1) / PAGE_SIZE * PAGE_SIZE

/-- The image-copy loop of `Process::do_load`:

```rust
while addr < end_addr {
    let bytes = p.vmap.alloc(VirtualAddr::from(addr), PagePerm::RWX);
    file.read(bytes)?;
    addr += PAGE_SIZE;
}
```

`n` counts the remaining iterations (the loop runs
`ceil(size / PAGE_SIZE)` times, since `addr` steps by `PAGE_SIZE` from
`USER_IMG_BASE` while below `USER_IMG_BASE + size`).  The returned
`List Nat` is the trace of byte counts the `file.read` calls returned — the
values the source discards with `file.read(bytes)?;`. -/
def do_load_loop : Nat → Nat → File → UserPageTable → AllocState →
    Except PanicReason (UserPageTable × AllocState × File × List Nat)
  | 0, _, f, upt, st => .ok (upt, st, f, [])
  | n + 1, addr, f, upt, st => do
      let ra ← upt.alloc st addr PagePerm.RWX
      let rr ← f.read PAGE_SIZE
      let rest ← do_load_loop n (addr + PAGE_SIZE) rr.2 ra.2.1 ra.2.2
      .ok (rest.1, rest.2.1, rest.2.2.1, rr.1 :: rest.2.2.2)

/-- The byte counts a run of `n` successful page reads returns, starting at
file position `pos`: each read fills `min(PAGE_SIZE, size - pos)` bytes (`0`
at end of file). -/
def read_counts (size : Nat) : Nat → Nat → List Nat
  | 0, _ => []
  | n + 1, pos =>
      let len := min PAGE_SIZE (size - pos)
      len :: read_counts size n (pos + len)

/-- Model of `Process::do_load(pn)` after the filesystem `open`: allocate the stack
page (`PagePerm::RW`) at `get_stack_base()`, then copy the image page by
page (`PagePerm::RWX`) from `USER_IMG_BASE`.  (`Process::new()`'s kernel
stack comes from the heap allocator, not the page allocator, and is not
part of the claims.) -/
def Process.do_load (size : Nat) (st : AllocState) :
    Except PanicReason (UserPageTable × AllocState × File × List Nat) := do
  let upt := UserPageTable.new
  let r1 ← upt.alloc st Process.get_stack_base PagePerm.RW
  let num_pages := (size + PAGE_SIZE - 1) / PAGE_SIZE
  do_load_loop num_pages USER_IMG_BASE ⟨size, 0⟩ r1.2.1 r1.2.2

theorem rotateLast_concat {α : Type} (d : List α) (g : α) :
    rotateLast (d ++ [g]) = g :: d := by
  simp [rotateLast, List.getLast?_concat, List.dropLast_concat]

theorem get_mid {α : Type} (d : List α) (t : α) (ts : List α)
    (h : d.length < (d ++ t :: ts).length) :
    (d ++ t :: ts).get ⟨d.length, h⟩ = t := by
  induction d with
  | nil => rfl
  | cons a d ih => exact ih (by simp)

theorem set_mid {α : Type} (d : List α) (g t : α) (ts : List α) :
    (d ++ t :: ts).set d.length g = d ++ g :: ts := by
  induction d with
  | nil => rfl
  | cons a d ih => simp [ih]

/-- Loop invariant for `Scheduler::switch_to`: after the not-ready processes
`d ++ [g]` (in original order, `g` most recent) have been examined and
pushed back to the front, with `todo` still unexamined, the loop produces
exactly the outcome of the single front-to-back scan `scanSpec todo`:
the first ready process is moved to the front (marked `Running`, its context
returned), the examined not-ready entries stay in original order behind it,
and an exhausted scan returns `none` with the queue rotated so that the
last-examined entry is at the front. -/
theorem switch_to_loop_invariant (todo : List Process) :
    ∀ (fuel : Nat) (d : List Process) (g : Process), todo.length + 1 ≤ fuel →
    Scheduler.switch_to_loop fuel (g :: (d ++ todo)) (d.length + 1) =
      match scanSpec todo with
      | (pre, some (rp, suf)) =>
          (some (rp.context.TPIDR, rp.context),
            { rp with state := State.Running } :: (d ++ [g] ++ pre ++ suf))
      | (pre, none) => (none, rotateLast (d ++ [g] ++ pre)) := by
  induction todo with
  | nil =>
      intro fuel d g hfuel
      match fuel, hfuel with
      | fuel + 1, _ =>
          rw [Scheduler.switch_to_loop, swap_remove_front]
          rw [dif_neg (by simp)]
          simp [scanSpec, rotateLast_concat]
  | cons t ts ih =>
      intro fuel d g hfuel
      match fuel, hfuel with
      | fuel + 1, hfuel =>
          rw [Scheduler.switch_to_loop, swap_remove_front]
          have hlt : d.length + 1 < (g :: (d ++ t :: ts)).length := by simp
          rw [dif_pos hlt]
          have hget : (g :: (d ++ t :: ts)).get ⟨d.length + 1, hlt⟩ = t := by
            simpa using get_mid d t ts (by simp)
          have hset : ((g :: (d ++ t :: ts)).set (d.length + 1) g).tail = d ++ g :: ts := by
            simp [set_mid]
          rw [hget, hset]
          by_cases hr : (t.is_ready).1
          · simp [scanSpec, hr]
          · simp only [hr, Bool.false_eq_true, if_false]
            have hf2 : ts.length + 1 ≤ fuel := by
              have h := hfuel
              simp only [List.length_cons] at h
              omega
            have hinv := ih fuel (d ++ [g]) (t.is_ready).2 hf2
            simp only [List.length_append, List.length_cons, List.length_nil,
              List.append_assoc, List.cons_append, List.nil_append] at hinv
            rw [hinv]
            simp only [scanSpec, hr, Bool.false_eq_true, if_false]
            rcases hscan : scanSpec ts with ⟨pre, o⟩
            cases o with
            | none => simp [hscan]
            | some rs => rcases rs with ⟨rp, suf⟩; simp [hscan]

/-- Characterization: `switch_to` is the single front-to-back scan — the claim-relevant
characterization of `Scheduler::switch_to` in terms of `scanSpec`. -/
theorem switch_to_eq_scan (s : Scheduler) (tf : TrapFrame) :
    s.switch_to tf =
      match scanSpec s.processes with
      | (pre, some (rp, suf)) =>
          (some rp.context.TPIDR,
            { s with processes := { rp with state := State.Running } :: (pre ++ suf) },
            rp.context)
      | (pre, none) => (none, { s with processes := rotateLast pre }, tf) := by
  rcases s with ⟨ps, lid⟩
  cases ps with
  | nil => rfl
  | cons p rest =>
      show (match Scheduler.switch_to_loop (rest.length + 1 + 1) (p :: rest) 0 with
        | (some (id, tf2), ps) => (some id, Scheduler.mk ps lid, tf2)
        | (none, ps) => (none, Scheduler.mk ps lid, tf)) = _
      rw [Scheduler.switch_to_loop, swap_remove_front]
      rw [dif_pos (by simp)]
      simp only [List.get, List.set, List.tail_cons]
      by_cases hr : (p.is_ready).1
      · simp only [scanSpec, hr, if_pos]
        simp [hr]
      · simp only [hr, Bool.false_eq_true, if_false]
        have hinv := switch_to_loop_invariant rest (rest.length + 1) [] (p.is_ready).2
          (by omega)
        simp only [List.nil_append, List.length_nil, Nat.zero_add] at hinv
        rw [hinv]
        simp only [scanSpec, hr, Bool.false_eq_true, if_false]
        rcases hscan : scanSpec rest with ⟨pre, o⟩
        cases o with
        | none => simp [hscan]
        | some rs => rcases rs with ⟨rp, suf⟩; simp [hscan]

/-- When every queue entry reports not-ready, the scan examines each entry
exactly once (in order) and finds nothing. -/
theorem scanSpec_none (ps : List Process) (h : ∀ p ∈ ps, (p.is_ready).1 = false) :
    scanSpec ps = (ps.map (fun p => (p.is_ready).2), none) := by
  induction ps with
  | nil => rfl
  | cons p rest ih =>
      have hp : (p.is_ready).1 = false := h p (by simp)
      simp only [scanSpec, hp, Bool.false_eq_true, if_false, List.map_cons]
      rw [ih (fun q hq => h q (by simp [hq]))]

theorem ids_from_eq (n : Nat) : ∀ b : Nat,
    ids_from b n = (List.range n).map (fun i => some (b + i + 1)) := by
  induction n with
  | zero => intro b; rfl
  | succ n ih =>
      intro b
      rw [List.range_succ_eq_map, List.map_cons, List.map_map]
      have htail : List.map ((fun i => some (b + i + 1)) ∘ Nat.succ) (List.range n) =
          List.map (fun i => some (b + 1 + i + 1)) (List.range n) := by
        apply List.map_congr_left
        intro a _
        simp only [Function.comp_apply]
        congr 1
        omega
      rw [htail]
      simp [ids_from, ih (b + 1)]

theorem stamp_map_tpidr (ps : List Process) : ∀ b : Nat,
    (stamp b ps).map (fun p => p.context.TPIDR) =
      (List.range ps.length).map (fun i => b + i + 1) := by
  induction ps with
  | nil => intro b; rfl
  | cons p rest ih =>
      intro b
      simp only [stamp, List.map_cons, List.length_cons]
      rw [List.range_succ_eq_map, List.map_cons, List.map_map]
      have htail : List.map ((fun i => b + i + 1) ∘ Nat.succ) (List.range rest.length) =
          List.map (fun i => b + 1 + i + 1) (List.range rest.length) := by
        apply List.map_congr_left
        intro a _
        simp only [Function.comp_apply]
        omega
      rw [htail, ih (b + 1)]

/-- Full characterization of a run of `add` calls: the returned ids, the
appended (TPIDR-stamped) processes, and the updated `last_id`. -/
theorem add_all_general (ps : List Process) : ∀ s : Scheduler,
    Scheduler.add_all s ps =
      (ids_from (s.last_id.getD 0) ps.length,
        { processes := s.processes ++ stamp (s.last_id.getD 0) ps,
          last_id := if ps.length = 0 then s.last_id
                     else some (s.last_id.getD 0 + ps.length) }) := by
  induction ps with
  | nil => intro s; simp [Scheduler.add_all, ids_from, stamp]
  | cons p rest ih =>
      intro s
      simp only [Scheduler.add_all, Scheduler.add, ids_from, stamp, List.length_cons]
      rw [ih]
      simp only [Option.getD_some, List.append_assoc, List.cons_append, List.nil_append,
        List.singleton_append]
      rcases Nat.eq_zero_or_pos rest.length with h | h
      · simp [h]
      · have hne : ¬ rest.length = 0 := by omega
        have hne2 : ¬ rest.length + 1 = 0 := by omega
        have h2 : s.last_id.getD 0 + 1 + rest.length = s.last_id.getD 0 + (rest.length + 1) := by
          ring
        simp [hne, hne2, h2]

/-! ## The claims -/

/-- C1, counterexample.  The claim says `Scheduler::schedule_out(new_state,
tf)` locates the queue entry whose stored trap-frame `TPIDR` equals
`tf.TPIDR` — not merely the front entry — and updates and re-queues *that*
process.  On the queue `[process 1 (Ready), process 2 (Running)]` with a
caller trap frame carrying `TPIDR = 2` (process 2 is the one on the CPU),
the code instead pops the front entry (process 1), overwrites its trap
frame with `tf` and marks it `Dead`: afterwards both queue entries carry
`TPIDR = 2` (pairs are `(TPIDR, state tag)`; `1 = Running`, `3 = Dead`),
and no entry with stored `TPIDR = 1` survives, whereas the behaviour the
claim describes (`schedule_out_claimed`) leaves `[(1, Ready), (2, Dead)]`. -/
theorem c1_schedule_out_counterexample :
    (Scheduler.schedule_out
        { processes := [proc 1 .Ready, proc 2 .Running], last_id := some 2 }
        .Dead { TPIDR := 2 }).1 = true
    ∧ ((Scheduler.schedule_out
          { processes := [proc 1 .Ready, proc 2 .Running], last_id := some 2 }
          .Dead { TPIDR := 2 }).2.processes.map
        (fun p => (p.context.TPIDR, p.state.tag))) = [(2, 1), (2, 3)]
    ∧ ((Scheduler.schedule_out_claimed
          { processes := [proc 1 .Ready, proc 2 .Running], last_id := some 2 }
          .Dead { TPIDR := 2 }).2.processes.map
        (fun p => (p.context.TPIDR, p.state.tag))) = [(1, 0), (2, 3)]
    ∧ [((2 : Nat), (1 : Nat)), (2, 3)] ≠ [(1, 0), (2, 3)] := by
  refine ⟨rfl, by decide, by decide, by decide⟩

/-- C1, amended: `schedule_out` pops the *front* queue entry
unconditionally (no `TPIDR` search; it relies on `switch_to` having left
the running process at the front), overwrites that entry's stored trap
frame with a copy of `tf`, sets its state to `new_state`, moves it to the
back of the queue and returns `true`; it returns `false` exactly when the
queue is empty. -/
theorem c1_schedule_out_amended (lid : Option Id) (ns : State) (tf : TrapFrame) :
    Scheduler.schedule_out { processes := [], last_id := lid } ns tf =
      (false, { processes := [], last_id := lid })
    ∧ ∀ (p : Process) (ps : List Process),
        Scheduler.schedule_out { processes := p :: ps, last_id := lid } ns tf =
          (true, { processes := ps ++ [{ p with state := ns, context := tf }],
                   last_id := lid }) :=
  ⟨rfl, fun _ _ => rfl⟩

/-- C2, counterexample.  The claim says every process whose `is_ready()`
returns false is pushed to the *back* of the queue.  The code pushes it
back to the *front* (after `swap_remove_front` has already cycled the old
front inward): on the all-unready queue `[process 1 (Running), process 2
(Running)]` the call returns `none` (that part of the claim holds) but
leaves the queue as `[2, 1]`, while the pop-front/push-back scan the claim
describes (`switch_to_claimed`) leaves `[1, 2]`. -/
theorem c2_switch_to_counterexample :
    (Scheduler.switch_to
        { processes := [proc 1 .Running, proc 2 .Running], last_id := some 2 } {}).1 = none
    ∧ ((Scheduler.switch_to
          { processes := [proc 1 .Running, proc 2 .Running], last_id := some 2 }
          {}).2.1.processes.map (fun p => p.context.TPIDR)) = [2, 1]
    ∧ ((Scheduler.switch_to_claimed
          { processes := [proc 1 .Running, proc 2 .Running], last_id := some 2 }
          {}).2.1.processes.map (fun p => p.context.TPIDR)) = [1, 2]
    ∧ ([2, 1] : List Nat) ≠ [1, 2] := by
  refine ⟨by decide, by decide, by decide, by decide⟩

/-- C2, amended.  During a single `switch_to(tf)` call the queue entries
are examined at most once each, in original front-to-back order (the scan
is bounded by the queue length): the first ready entry is marked `Running`,
its stored trap frame is copied into `tf` and it is pushed to the *front*,
the examined not-ready entries staying behind it in their original order;
each not-ready entry is pushed back at the *front* as the scan index
advances past it, so a fully unsuccessful scan returns `none` with the
queue rotated (last-examined entry first) and `tf` unchanged. -/
theorem c2_switch_to_amended (s : Scheduler) (tf : TrapFrame) :
    (s.switch_to tf =
      match scanSpec s.processes with
      | (pre, some (rp, suf)) =>
          (some rp.context.TPIDR,
            { s with processes := { rp with state := State.Running } :: (pre ++ suf) },
            rp.context)
      | (pre, none) => (none, { s with processes := rotateLast pre }, tf))
    ∧ ((∀ p ∈ s.processes, (p.is_ready).1 = false) →
        (s.switch_to tf).1 = none ∧ (s.switch_to tf).2.2 = tf) := by
  refine ⟨switch_to_eq_scan s tf, fun hall => ?_⟩
  rw [switch_to_eq_scan s tf, scanSpec_none s.processes hall]
  exact ⟨rfl, rfl⟩

/-- C2 witness: a concrete all-unready queue on which the amended theorem's
hypothesis holds and `switch_to` indeed returns `none` leaving `tf`
untouched. -/
theorem c2_switch_to_amended_witness :
    (∀ p ∈ [proc 1 .Running, proc 2 .Dead], (p.is_ready).1 = false)
    ∧ (Scheduler.switch_to
        { processes := [proc 1 .Running, proc 2 .Dead], last_id := some 2 } {}).1 = none :=
  ⟨by decide,
    ((c2_switch_to_amended
        { processes := [proc 1 .Running, proc 2 .Dead], last_id := some 2 } {}).2
      (by decide)).1⟩

/-- C3: round-robin fairness, end to end.  On a fresh scheduler, four
always-Ready processes added via `add` receive ids 1–4; eight
`switch_to`/`schedule_out(Ready)` cycles return exactly
`[1, 2, 3, 4, 1, 2, 3, 4]` — queue-arrival order, with no id repeating
before all four have been returned.  Likewise three such processes yield
`[1, 2, 3]` over three cycles. -/
theorem c3_round_robin :
    Scheduler.run_cycles 8
        (Scheduler.add_all Scheduler.new
          [proc 0 .Ready, proc 0 .Ready, proc 0 .Ready, proc 0 .Ready]).2 {} =
      [some 1, some 2, some 3, some 4, some 1, some 2, some 3, some 4]
    ∧ Scheduler.run_cycles 3
        (Scheduler.add_all Scheduler.new [proc 0 .Ready, proc 0 .Ready, proc 0 .Ready]).2 {} =
      [some 1, some 2, some 3] := by
  refine ⟨by decide, by decide⟩

/-- C4: for every sequence of `add` calls on a fresh scheduler, the i-th
call returns `some i` (ids start at 1, are strictly increasing, never
reused, and `add` never fails), each returned id is stored in the added
process's trap-frame `TPIDR`, and the processes are appended to the back of
the queue in call order (`stamp 0 ps`), otherwise unmodified. -/
theorem c4_add_ids (ps : List Process) :
    (Scheduler.add_all Scheduler.new ps).1 =
      (List.range ps.length).map (fun i => some (i + 1))
    ∧ (Scheduler.add_all Scheduler.new ps).2.processes = stamp 0 ps
    ∧ (stamp 0 ps).map (fun p => p.context.TPIDR) =
        (List.range ps.length).map (fun i => i + 1)
    ∧ (Scheduler.add_all Scheduler.new ps).2.last_id =
        (if ps.length = 0 then none else some ps.length) := by
  have h := add_all_general ps Scheduler.new
  refine ⟨?_, ?_, ?_, ?_⟩
  · rw [h]
    show ids_from (Scheduler.new.last_id.getD 0) ps.length = _
    rw [ids_from_eq]
    simp [Scheduler.new]
  · rw [h]
    show Scheduler.new.processes ++ stamp (Scheduler.new.last_id.getD 0) ps = _
    simp [Scheduler.new]
  · rw [stamp_map_tpidr ps 0]
    simp
  · rw [h]
    show (if ps.length = 0 then Scheduler.new.last_id
          else some (Scheduler.new.last_id.getD 0 + ps.length)) = _
    simp [Scheduler.new]

/-- C5: `Process::is_ready` returns `true` and leaves the state `Ready`
when the state is `Ready`; on `Waiting(poll)` it invokes the poll function
with mutable access to the process and returns `true` exactly when the poll
reports completion, leaving the state `Ready` (while keeping any writes the
poll made to the process); otherwise it restores the exact prior `Waiting`
state — the same poll closure — and returns `false`; on `Running` and
`Dead` it returns `false` with the state untouched. -/
theorem c5_is_ready_cases (tf : TrapFrame) (poll : TrapFrame → Bool × TrapFrame) :
    Process.is_ready { context := tf, state := .Ready } =
      (true, { context := tf, state := .Ready })
    ∧ Process.is_ready { context := tf, state := .Waiting poll } =
        ((poll tf).1,
          { context := (poll tf).2,
            state := if (poll tf).1 then State.Ready else State.Waiting poll })
    ∧ Process.is_ready { context := tf, state := .Running } =
        (false, { context := tf, state := .Running })
    ∧ Process.is_ready { context := tf, state := .Dead } =
        (false, { context := tf, state := .Dead }) := by
  refine ⟨rfl, ?_, rfl, rfl⟩
  simp only [Process.is_ready]
  by_cases h : (poll tf).1 <;> simp [h]

/-! Reduction lemmas for the `Except` monad operations the embedding uses
(all definitional). -/

@[simp] theorem except_bind_ok {ε α β : Type} (a : α) (f : α → Except ε β) :
    (do let x ← (Except.ok a : Except ε α); f x) = f a := rfl

@[simp] theorem except_bind_error {ε α β : Type} (e : ε) (f : α → Except ε β) :
    (do let x ← (Except.error e : Except ε α); f x) = Except.error e := rfl

@[simp] theorem except_isOk_ok {ε α : Type} (a : α) :
    (Except.ok a : Except ε α).isOk = true := rfl

@[simp] theorem except_isOk_error {ε α : Type} (e : ε) :
    (Except.error e : Except ε α).isOk = false := rfl

@[simp] theorem except_toOption_ok {ε α : Type} (a : α) :
    (Except.ok a : Except ε α).toOption = some a := rfl

@[simp] theorem except_toOption_error {ε α : Type} (e : ε) :
    (Except.error e : Except ε α).toOption = none := rfl

/-- C8, counterexample.  The claim says `locate` panics for every virtual
address whose derived L2 index does not address one of the table's two L3
tables.  `va = 0x4000_0000` is page-aligned with L2 index 2, which
addresses no L3 table (`get_entry 2 0 = none` on the 2-table structure) —
yet `locate` returns `(2, 0)` without panicking, because its guard is
`l2index > 2`, not `l2index ≥ 2`. -/
theorem c8_locate_counterexample :
    PageTable.locate (PageTable.new EntryPerm.USER_RW) 0x40000000 = .ok (2, 0)
    ∧ (PageTable.new EntryPerm.USER_RW).l3.length = 2
    ∧ PageTable.get_entry (PageTable.new EntryPerm.USER_RW) 2 0 = none := by
  exact ⟨rfl, rfl, rfl⟩

/-- C8, amended.  For a table with two 8192-entry L3 tables: `locate va`
panics exactly when `va` is not page-aligned (low 16 bits nonzero) or its
L2 index (bits 41:29) exceeds 2; for every aligned `va` it returns the
`(l2_index, l3_index)` pair, which addresses exactly one existing L3 entry
precisely when the L2 index is at most 1 — at L2 index 2 `locate` itself
succeeds and the out-of-bounds panic instead fires at the caller's
indexing, as `set_entry`'s success condition shows. -/
theorem c8_locate_amended (pt : PageTable) (va : Nat) (ent : RawL3Entry)
    (h2 : pt.l3.length = 2) (hlen : ∀ t ∈ pt.l3, t.length = 8192) :
    (pt.locate va).isOk = (decide (va % 0x10000 = 0) && decide (l2_index va ≤ 2))
    ∧ ((pt.locate va).toOption.map (fun idx => (pt.get_entry idx.1 idx.2).isSome)) =
        (if va % 0x10000 = 0 ∧ l2_index va ≤ 2
         then some (decide (l2_index va ≤ 1)) else none)
    ∧ (pt.set_entry va ent).isOk =
        (decide (va % 0x10000 = 0) && decide (l2_index va ≤ 1)) := by
  obtain ⟨t0, t1, hpt⟩ := List.length_eq_two.mp h2
  have ht0 : t0.length = 8192 := hlen t0 (by simp [hpt])
  have ht1 : t1.length = 8192 := hlen t1 (by simp [hpt])
  have hl3 : l3_index va < 8192 := Nat.mod_lt _ (by norm_num)
  by_cases hal : va % 0x10000 = 0
  · by_cases hle : l2_index va ≤ 2
    · have hloc : pt.locate va = .ok (l2_index va, l3_index va) := by
        rw [PageTable.locate, if_neg (Nat.not_lt.mpr hle), if_neg (by simp [hal])]
      have hcases : l2_index va = 0 ∨ l2_index va = 1 ∨ l2_index va = 2 := by omega
      refine ⟨by rw [hloc]; simp [hal, hle], ?_, ?_⟩
      · rw [hloc, if_pos ⟨hal, hle⟩]
        simp only [except_toOption_ok, Option.map]
        rcases hcases with h | h | h <;>
          simp [PageTable.get_entry, hpt, h, List.get?_eq_get, ht0, ht1, hl3]
      · rw [PageTable.set_entry]
        simp only [hloc, except_bind_ok]
        rcases hcases with h | h | h <;>
          simp [hpt, h, hal, ht0, ht1, hl3, List.get?_eq_get]
    · have hgt : 2 < l2_index va := Nat.lt_of_not_le hle
      have hloc : pt.locate va = .error .l2IndexOutOfRange := by
        rw [PageTable.locate, if_pos hgt]
      have hle1 : ¬ l2_index va ≤ 1 := by omega
      refine ⟨by rw [hloc]; simp [hle], ?_, ?_⟩
      · rw [hloc]
        simp [hle]
      · rw [PageTable.set_entry]
        simp only [hloc, except_bind_error]
        simp [hle1]
  · have hloc : ∃ r, pt.locate va = .error r := by
      by_cases hgt : 2 < l2_index va
      · exact ⟨.l2IndexOutOfRange, by rw [PageTable.locate, if_pos hgt]⟩
      · exact ⟨.unaligned, by
          rw [PageTable.locate, if_neg hgt, if_pos hal]⟩
    obtain ⟨r, hloc⟩ := hloc
    refine ⟨by rw [hloc]; simp [hal], ?_, ?_⟩
    · rw [hloc]
      simp [hal]
    · rw [PageTable.set_entry]
      simp only [hloc, except_bind_error]
      simp [hal]

/-- C8 witness: a concrete aligned in-range address on a freshly built
table, discharging the amended theorem's shape hypotheses. -/
theorem c8_locate_amended_witness :
    (PageTable.new EntryPerm.USER_RW).l3.length = 2
    ∧ (∀ t ∈ (PageTable.new EntryPerm.USER_RW).l3, t.length = 8192)
    ∧ ((PageTable.new EntryPerm.USER_RW).locate 0x50000).isOk = true := by
  have h2 : (PageTable.new EntryPerm.USER_RW).l3.length = 2 := rfl
  have hlen : ∀ t ∈ (PageTable.new EntryPerm.USER_RW).l3, t.length = 8192 := by
    intro t ht
    simp only [PageTable.new, List.mem_cons, List.not_mem_nil, or_false] at ht
    rcases ht with h | h <;> rw [h, List.length_replicate]
  exact ⟨h2, hlen,
    ((c8_locate_amended (PageTable.new EntryPerm.USER_RW) 0x50000 {} h2 hlen).1).trans
      (by decide)⟩

/-- C6: `UserPageTable::alloc` ignores its permission argument (`_perm`,
"`TODO. use perm properly`") — two calls differing only in `perm` are
identical — and the installed entry's hardware access-permission field is
always `USER_RW`.  The claim requires the AP field to carry the encoding of
the *requested* permission class, so it fails at `perm = RO`
(`USER_RO ≠ USER_RW`); concretely, an `RO` allocation installs an entry
whose AP field is `USER_RW`.  (`Process::do_load` requests `RW` for the
stack page and `RWX` for image pages, whose AP encodings do coincide with
`USER_RW`; the execute side of `RWX` has no counterpart in the installed
entry either, `alloc` setting no execute-related field at all.) -/
theorem c6_alloc_perm_ignored :
    (∀ (upt : UserPageTable) (st : AllocState) (va : Nat) (p1 p2 : PagePerm),
        UserPageTable.alloc upt st va p1 = UserPageTable.alloc upt st va p2)
    ∧ (∀ addr : Nat, (UserPageTable.build_entry addr).AP = EntryPerm.USER_RW)
    ∧ spec_perm_ap PagePerm.RO ≠ EntryPerm.USER_RW
    ∧ spec_perm_ap PagePerm.RW = EntryPerm.USER_RW
    ∧ spec_perm_ap PagePerm.RWX = EntryPerm.USER_RW
    ∧ ((UserPageTable.alloc UserPageTable.new ⟨[0x10000]⟩ USER_IMG_BASE
          PagePerm.RO).toOption.map
        (fun r => (r.2.1.table.get_entry 0 0).map (fun e => e.raw.AP))) =
      some (some EntryPerm.USER_RW) := by
  exact ⟨fun _ _ _ _ _ => rfl, fun _ => rfl, by decide, rfl, rfl, by decide⟩

/-- The full drop loop as a fold: the dealloc trace is exactly the valid
entries' stored addresses in iteration order, each returned page prepended
to the allocator's free list. -/
theorem drop_fold (l : List L3Entry) : ∀ (st : AllocState) (log : List Nat),
    l.foldl drop_step (st, log) =
      (AllocState.mk
          ((((l.filter (fun e => e.is_valid)).map (fun e => e.raw.ADDR)).reverse) ++
            st.freeList),
        log ++ (l.filter (fun e => e.is_valid)).map (fun e => e.raw.ADDR)) := by
  induction l with
  | nil => intro st log; simp
  | cons e rest ih =>
      intro st log
      by_cases hv : e.is_valid
      · have hpa : e.get_page_addr = some e.raw.ADDR := by
          simp [L3Entry.get_page_addr, hv]
        simp only [List.foldl_cons, drop_step, hv, if_true, hpa]
        rw [ih]
        simp [AllocState.dealloc, List.filter_cons, hv]
      · simp only [List.foldl_cons, drop_step, hv, Bool.false_eq_true, if_false]
        rw [ih]
        simp [List.filter_cons, hv]

theorem filter_length_set {α : Type} (p : α → Bool) :
    ∀ (l : List α) (j : Nat) (old new : α), l.get? j = some old →
      ((l.set j new).filter p).length + (if p old then 1 else 0) =
        (l.filter p).length + (if p new then 1 else 0) := by
  intro l
  induction l with
  | nil => intro j old new h; simp at h
  | cons a rest ih =>
      intro j old new h
      cases j with
      | zero =>
          simp only [List.get?_cons_zero, Option.some.injEq] at h
          rw [← h, List.set_cons_zero]
          by_cases hpa : p a <;> by_cases hpn : p new <;>
            simp [List.filter_cons, hpa, hpn]
      | succ j =>
          simp only [List.get?_cons_succ] at h
          have hih := ih j old new h
          by_cases hpa : p a <;>
            simp [List.set_cons_succ, List.filter_cons, hpa] <;> omega

theorem flatten_filter_length_set {α : Type} (p : α → Bool) :
    ∀ (outer : List (List α)) (i : Nat) (t tnew : List α), outer.get? i = some t →
      (((outer.set i tnew).flatten).filter p).length + (t.filter p).length =
        ((outer.flatten).filter p).length + (tnew.filter p).length := by
  intro outer
  induction outer with
  | nil => intro i t tnew h; simp at h
  | cons a rest ih =>
      intro i t tnew h
      cases i with
      | zero =>
          simp only [List.get?_cons_zero, Option.some.injEq] at h
          rw [← h, List.set_cons_zero]
          simp only [List.flatten_cons, List.filter_append, List.length_append]
          omega
      | succ i =>
          simp only [List.get?_cons_succ] at h
          have hih := ih i t tnew h
          simp only [List.set_cons_succ, List.flatten_cons, List.filter_append,
            List.length_append]
          omega

theorem valid_count_page_table_new (perm : Nat) : (PageTable.new perm).valid_count = 0 := by
  have hrep : List.filter (fun e => e.is_valid) (List.replicate 8192 L3Entry.new) = [] := by
    rw [List.filter_eq_nil_iff]
    intro e he
    rw [List.eq_of_mem_replicate he]
    decide
  simp only [PageTable.valid_count, PageTable.entries, PageTable.new]
  simp only [List.flatten_cons, List.flatten_nil, List.append_nil, List.filter_append, hrep]
  simp

/-- A successful `UserPageTable::alloc` installs exactly one new valid entry
(the target slot was invalid, by precondition) and consumes exactly one free
page from the allocator. -/
theorem alloc_ok_shape {upt : UserPageTable} {st : AllocState} {va : Nat}
    {perm : PagePerm} {r : Nat × UserPageTable × AllocState}
    (h : upt.alloc st va perm = .ok r) :
    r.2.1.table.valid_count = upt.table.valid_count + 1
    ∧ r.2.2.freeCount + 1 = st.freeCount := by
  simp only [UserPageTable.alloc] at h
  split at h
  · exact absurd h (by simp)
  · cases hv : upt.table.is_valid (va - USER_IMG_BASE) with
    | error e => rw [hv] at h; simp only [except_bind_error] at h; exact absurd h (by simp)
    | ok valid =>
        rw [hv] at h
        simp only [except_bind_ok] at h
        cases valid with
        | true => exact absurd h (by simp)
        | false =>
            simp only [Bool.false_eq_true, if_false] at h
            -- the allocator hand-out
            rcases st with ⟨fl⟩
            cases fl with
            | nil => simp [AllocState.alloc] at h
            | cons a rest =>
                simp only [AllocState.alloc] at h
                split at h
                · exact absurd h (by simp)
                · cases hse : (upt.table.set_entry (va - USER_IMG_BASE)
                      (UserPageTable.build_entry a)) with
                  | error e => rw [hse] at h; simp only [except_bind_error] at h
                               exact absurd h (by simp)
                  | ok t2 =>
                      rw [hse] at h
                      simp only [except_bind_ok, Except.ok.injEq] at h
                      subst h
                      -- dissect the is_valid = false evidence
                      rw [PageTable.is_valid] at hv
                      cases hloc : upt.table.locate (va - USER_IMG_BASE) with
                      | error e => rw [hloc] at hv; simp only [except_bind_error] at hv
                                   exact absurd hv (by simp)
                      | ok idx =>
                          rw [hloc] at hv
                          simp only [except_bind_ok] at hv
                          rw [PageTable.get_entry] at hv
                          cases houter : upt.table.l3.get? idx.1 with
                          | none => rw [houter] at hv; simp at hv
                          | some t =>
                              rw [houter] at hv
                              simp only [Option.some_bind] at hv
                              cases hinner : t.get? idx.2 with
                              | none => rw [hinner] at hv; simp at hv
                              | some old =>
                                  rw [hinner] at hv
                                  simp only [Except.ok.injEq] at hv
                                  -- dissect the set_entry success
                                  rw [PageTable.set_entry, hloc] at hse
                                  simp only [except_bind_ok, houter, hinner,
                                    Except.ok.injEq] at hse
                                  subst hse
                                  have hflat := flatten_filter_length_set
                                    (fun e => e.is_valid) upt.table.l3 idx.1 t
                                    (t.set idx.2 ⟨UserPageTable.build_entry a⟩) houter
                                  have hfilt := filter_length_set
                                    (fun e => e.is_valid) t idx.2 old
                                    ⟨UserPageTable.build_entry a⟩ hinner
                                  have hnew :
                                      (L3Entry.mk (UserPageTable.build_entry a)).is_valid =
                                        true := rfl
                                  simp only [hv, hnew, Bool.false_eq_true, if_false,
                                    if_true] at hfilt
                                  constructor
                                  · simp only [PageTable.valid_count,
                                      PageTable.entries] at hflat ⊢
                                    omega
                                  · simp [AllocState.freeCount]

/-- Accounting for a run of `alloc` calls: each successful call installs one
valid entry and consumes one free page. -/
theorem alloc_list_ok : ∀ (vas : List Nat) (upt : UserPageTable) (st : AllocState)
    (r : UserPageTable × AllocState),
    UserPageTable.alloc_list vas upt st = .ok r →
    r.1.table.valid_count = upt.table.valid_count + vas.length
    ∧ r.2.freeCount + vas.length = st.freeCount := by
  intro vas
  induction vas with
  | nil =>
      intro upt st r h
      simp only [UserPageTable.alloc_list, Except.ok.injEq] at h
      subst h
      simp
  | cons va rest ih =>
      intro upt st r h
      rw [UserPageTable.alloc_list] at h
      cases ha : upt.alloc st va PagePerm.RW with
      | error e => rw [ha] at h; simp only [except_bind_error] at h; exact absurd h (by simp)
      | ok x =>
          rw [ha] at h
          simp only [except_bind_ok] at h
          have h1 := alloc_ok_shape ha
          have h2 := ih x.2.1 x.2.2 r h
          simp only [List.length_cons]
          constructor <;> omega

/-- C7: dropping a `UserPageTable` calls the allocator's `dealloc` exactly
once per L3 entry that is valid at drop time — the trace of dealloc calls is
exactly the valid entries' stored physical addresses, in iteration order;
invalid entries trigger no call — so the free-page count grows by exactly
the number of valid entries; and after any successful run of `alloc` calls
on a fresh table followed by the drop loop, the allocator's free-page count
returns to its pre-test baseline (no leak, no double free).  The final
conjunct exhibits a concrete two-page run that completes. -/
theorem c7_drop_dealloc :
    (∀ (upt : UserPageTable) (st : AllocState),
        (upt.drop_dealloc st).2 =
          (upt.table.entries.filter (fun e => e.is_valid)).map (fun e => e.raw.ADDR)
        ∧ (upt.drop_dealloc st).1.freeCount = st.freeCount + upt.table.valid_count)
    ∧ (∀ (vas : List Nat) (st : AllocState),
        match UserPageTable.alloc_list vas UserPageTable.new st with
        | .ok r => ((r.1.drop_dealloc r.2).1.freeCount = st.freeCount)
        | .error _ => True)
    ∧ (UserPageTable.alloc_list [USER_IMG_BASE, USER_IMG_BASE + 0x10000]
        UserPageTable.new ⟨[0x10000, 0x20000]⟩).isOk = true := by
  have hmain : ∀ (upt : UserPageTable) (st : AllocState),
      (upt.drop_dealloc st).2 =
        (upt.table.entries.filter (fun e => e.is_valid)).map (fun e => e.raw.ADDR)
      ∧ (upt.drop_dealloc st).1.freeCount = st.freeCount + upt.table.valid_count := by
    intro upt st
    rw [UserPageTable.drop_dealloc, drop_fold]
    constructor
    · simp
    · simp [AllocState.freeCount, PageTable.valid_count]
      omega
  refine ⟨hmain, ?_, by decide⟩
  intro vas st
  cases h : UserPageTable.alloc_list vas UserPageTable.new st with
  | error e => trivial
  | ok r =>
      have h1 := alloc_list_ok vas UserPageTable.new st r h
      have h2 := (hmain r.1 r.2).2
      have h3 : (UserPageTable.new).table.valid_count = 0 :=
        valid_count_page_table_new EntryPerm.USER_RW
      omega

/-- A `KernPageTable::new` walk entry whose page lands in an L3 table the
structure actually has (L2 index at most 1) always takes the normal-memory
branch and stores a physical address outside the I/O range: such an address
satisfies `addr mod 2^42 < 2^30`, while the I/O range `0xFE00_0000 ..=
0x1_0000_0000` lies entirely inside `[2^30, 2^42)`. -/
theorem build_entry_good (addr : Nat) (h : l2_index addr ≤ 1) :
    ((KernPageTable.build_entry addr).ADDR < IO_BASE ∨
      (KernPageTable.build_entry addr).ADDR > IO_BASE_END)
    ∧ (KernPageTable.build_entry addr).ATTR = EntryAttr.Mem
    ∧ (KernPageTable.build_entry addr).SH = EntrySh.ISh
    ∧ (KernPageTable.build_entry addr).AP = EntryPerm.KERN_RW := by
  rw [l2_index] at h
  have hio : ¬ (IO_BASE ≤ addr ∧ addr ≤ IO_BASE_END) := by
    simp only [IO_BASE, IO_BASE_END]
    omega
  rw [KernPageTable.build_entry, if_neg hio]
  refine ⟨?_, rfl, rfl, rfl⟩
  simp only [mask_addr, IO_BASE, IO_BASE_END]
  omega

/-- A successful `set_entry` replaces exactly one entry: every entry of the
result was already in the table or is the newly written one; the table shape
is preserved; and the L2 index addressed an existing L3 table. -/
theorem mem_entries_set_entry {pt : PageTable} {va : Nat} {ent : RawL3Entry}
    {pt2 : PageTable} (h : pt.set_entry va ent = .ok pt2) :
    (∀ e ∈ pt2.entries, e ∈ pt.entries ∨ e = ⟨ent⟩)
    ∧ pt2.l3.length = pt.l3.length
    ∧ l2_index va < pt.l3.length := by
  rw [PageTable.set_entry] at h
  cases hloc : pt.locate va with
  | error e => rw [hloc] at h; simp only [except_bind_error] at h; exact absurd h (by simp)
  | ok idx =>
      rw [hloc] at h
      simp only [except_bind_ok] at h
      cases houter : pt.l3.get? idx.1 with
      | none => rw [houter] at h; simp at h
      | some t =>
          simp only [houter] at h
          cases hinner : t.get? idx.2 with
          | none => rw [hinner] at h; simp at h
          | some old =>
              rw [hinner] at h
              simp only [Except.ok.injEq] at h
              subst h
              have hidx : idx = (l2_index va, l3_index va) := by
                rw [PageTable.locate] at hloc
                split at hloc
                · simp at hloc
                · split at hloc
                  · simp at hloc
                  · simp only [Except.ok.injEq] at hloc
                    exact hloc.symm
              subst hidx
              refine ⟨?_, by simp, ?_⟩
              · intro e he
                simp only [PageTable.entries] at he ⊢
                obtain ⟨s, hs, hes⟩ := List.mem_flatten.mp he
                rcases List.mem_or_eq_of_mem_set hs with hs2 | hs2
                · exact Or.inl (List.mem_flatten.mpr ⟨s, hs2, hes⟩)
                · subst hs2
                  rcases List.mem_or_eq_of_mem_set hes with he2 | he2
                  · exact Or.inl (List.mem_flatten.mpr ⟨t, List.get?_mem houter, he2⟩)
                  · exact Or.inr he2
              · obtain ⟨hlt, _⟩ := List.get?_eq_some.mp houter
                exact hlt

/-- Invariant of the `KernPageTable::new` walk: starting from a 2-table
structure whose valid entries all avoid the I/O range and carry
normal-memory attributes, every table a successful walk can produce still
has that property — the device branch can never contribute an entry,
because any address it would fire for fails `set_entry` first. -/
theorem kern_fold_clear :
    ∀ (addrs : List Nat) (pt : PageTable),
      pt.l3.length = 2 →
      (∀ e ∈ pt.entries, e.is_valid = true →
        (e.raw.ADDR < IO_BASE ∨ e.raw.ADDR > IO_BASE_END) ∧
          e.raw.ATTR = EntryAttr.Mem ∧ e.raw.SH = EntrySh.ISh ∧
          e.raw.AP = EntryPerm.KERN_RW) →
      ∀ pt2,
        addrs.foldlM
            (fun pt addr => pt.set_entry addr (KernPageTable.build_entry addr)) pt =
          .ok pt2 →
        pt2.l3.length = 2 ∧
        (∀ e ∈ pt2.entries, e.is_valid = true →
          (e.raw.ADDR < IO_BASE ∨ e.raw.ADDR > IO_BASE_END) ∧
            e.raw.ATTR = EntryAttr.Mem ∧ e.raw.SH = EntrySh.ISh ∧
            e.raw.AP = EntryPerm.KERN_RW) := by
  intro addrs
  induction addrs with
  | nil =>
      intro pt hR hQ pt2 h
      rw [List.foldlM_nil] at h
      simp only [pure, Except.pure, Except.ok.injEq] at h
      subst h
      exact ⟨hR, hQ⟩
  | cons a rest ih =>
      intro pt hR hQ pt2 h
      rw [List.foldlM_cons] at h
      cases hstep : pt.set_entry a (KernPageTable.build_entry a) with
      | error e => rw [hstep] at h; simp only [except_bind_error] at h
                   exact absurd h (by simp)
      | ok pt1 =>
          rw [hstep] at h
          simp only [except_bind_ok] at h
          obtain ⟨hmem, hlen, hlt⟩ := mem_entries_set_entry hstep
          have hl2 : l2_index a ≤ 1 := by rw [hR] at hlt; omega
          have hgood := build_entry_good a hl2
          refine ih pt1 (hlen.trans hR) ?_ pt2 h
          intro e he hval
          rcases hmem e he with hmem2 | hmem2
          · exact hQ e hmem2 hval
          · rw [hmem2]
            exact hgood

/-- C9: whenever `KernPageTable::new` runs to completion, *no* valid entry
maps a physical address in the I/O range `IO_BASE ..= IO_BASE_END` and
*every* entry carries normal-memory, inner-shareable, kernel-read/write
attributes: the device/outer-shareable branch is unreachable, because the
walk `(0..end_of_RAM).step_by(PAGE_SIZE)` would already panic in
`set_entry` (L3 table array overrun) long before reaching
`IO_BASE = 0xFE00_0000` — the table covers only L2 indices 0 and 1.  The
claim instead requires one identity device-attribute mapping per I/O page.
The second conjunct shows a small walk completing with the expected
identity RAM entries, so the first is not vacuous. -/
theorem c9_kern_io_unmapped :
    (∀ end_address : Nat, kern_entries_clear (KernPageTable.new end_address) = true)
    ∧ kern_sample_check (KernPageTable.new (2 * PAGE_SIZE)) = true := by
  constructor
  · intro ea
    cases h : KernPageTable.new ea with
    | error e => rw [kern_entries_clear]
    | ok pt =>
        rw [kern_entries_clear]
        rw [List.all_eq_true]
        have hfresh_Q : ∀ e ∈ (PageTable.new EntryPerm.KERN_RW).entries,
            e.is_valid = true →
            (e.raw.ADDR < IO_BASE ∨ e.raw.ADDR > IO_BASE_END) ∧
              e.raw.ATTR = EntryAttr.Mem ∧ e.raw.SH = EntrySh.ISh ∧
              e.raw.AP = EntryPerm.KERN_RW := by
          intro e he hval
          exfalso
          have hnew : e = L3Entry.new := by
            simp only [PageTable.entries, PageTable.new, List.flatten_cons,
              List.flatten_nil, List.append_nil, List.mem_append] at he
            rcases he with he | he <;> exact List.eq_of_mem_replicate he
          rw [hnew] at hval
          exact absurd hval (by decide)
        rw [KernPageTable.new] at h
        have hinv := kern_fold_clear (KernPageTable.page_addrs ea)
          (PageTable.new EntryPerm.KERN_RW) rfl hfresh_Q pt h
        intro e he
        by_cases hval : e.is_valid
        · obtain ⟨hior, hattr, hsh, hap⟩ := hinv.2 e he hval
          simp only [hval, Bool.not_true, Bool.false_or]
          rcases hior with hio | hio <;> simp [hio, hattr, hsh, hap]
        · simp [hval]
  · decide

/-- The image-copy loop's read trace: a successful run performs one `read`
per page and records `min(PAGE_SIZE, size - pos)` bytes for each, whatever
those counts are — the loop's control flow never consults them. -/
theorem do_load_loop_counts :
    ∀ (n addr : Nat) (f : File) (upt : UserPageTable) (st : AllocState)
      (r : UserPageTable × AllocState × File × List Nat),
      do_load_loop n addr f upt st = .ok r →
      r.2.2.2 = read_counts f.size n f.pos := by
  intro n
  induction n with
  | zero =>
      intro addr f upt st r h
      simp only [do_load_loop, Except.ok.injEq] at h
      subst h
      rfl
  | succ n ih =>
      intro addr f upt st r h
      rw [do_load_loop] at h
      cases ha : upt.alloc st addr PagePerm.RWX with
      | error e => rw [ha] at h; simp only [except_bind_error] at h
                   exact absurd h (by simp)
      | ok x =>
          rw [ha] at h
          simp only [except_bind_ok] at h
          cases hr : f.read PAGE_SIZE with
          | error e => rw [hr] at h; simp only [except_bind_error] at h
                       exact absurd h (by simp)
          | ok y =>
              rw [hr] at h
              simp only [except_bind_ok] at h
              cases hrec : do_load_loop n (addr + PAGE_SIZE) y.2 x.2.1 x.2.2 with
              | error e => rw [hrec] at h; simp only [except_bind_error] at h
                           exact absurd h (by simp)
              | ok z =>
                  rw [hrec] at h
                  simp only [except_bind_ok, Except.ok.injEq] at h
                  subst h
                  have hz := ih (addr + PAGE_SIZE) y.2 x.2.1 x.2.2 z hrec
                  rw [File.read] at hr
                  split at hr
                  · next heq =>
                      simp only [Except.ok.injEq] at hr
                      rw [read_counts, ← hr]
                      simp only [heq, Nat.sub_self, Nat.min_zero, Nat.add_zero]
                      rw [hz, ← hr]
                      simp [heq]
                  · split at hr
                    · simp at hr
                    · next hgt =>
                        simp only [Except.ok.injEq] at hr
                        rw [read_counts, ← hr]
                        simp only []
                        rw [hz, ← hr]

/-- C10, counterexample.  The claim says a read returning fewer bytes than
the page slice (without an I/O error) makes the load fail.  Loading a
one-byte file copies one page; the single `file.read` returns `1 <
PAGE_SIZE` bytes — a short read — and the loop nevertheless succeeds
(`file.read(bytes)?;` discards the count). -/
theorem c10_short_read_counterexample :
    (do_load_loop 1 USER_IMG_BASE ⟨1, 0⟩ UserPageTable.new ⟨[0x10000]⟩).isOk = true
    ∧ ((do_load_loop 1 USER_IMG_BASE ⟨1, 0⟩ UserPageTable.new
          ⟨[0x10000]⟩).toOption.map (fun r => r.2.2.2)) = some [1]
    ∧ 1 < PAGE_SIZE := by
  refine ⟨by decide, by decide, by decide⟩

/-- C10, amended: `do_load` propagates I/O *errors* from the filesystem but
ignores the byte *count* every `read` returns, so a short read is not a
load error: any successful run's trace of read results is exactly the
`min(PAGE_SIZE, remaining)` sequence — in particular the final page of any
file whose size is not a page multiple is a short read, and the load still
returns the process. -/
theorem c10_do_load_short_read_accepted :
    (∀ (n addr : Nat) (f : File) (upt : UserPageTable) (st : AllocState),
        match do_load_loop n addr f upt st with
        | .ok r => r.2.2.2 = read_counts f.size n f.pos
        | .error _ => True)
    ∧ (∀ (size : Nat) (st : AllocState),
        match Process.do_load size st with
        | .ok r => r.2.2.2 = read_counts size ((size + PAGE_SIZE - 1) / PAGE_SIZE) 0
        | .error _ => True) := by
  constructor
  · intro n addr f upt st
    cases h : do_load_loop n addr f upt st with
    | error e => trivial
    | ok r => exact do_load_loop_counts n addr f upt st r h
  · intro size st
    cases h : Process.do_load size st with
    | error e => trivial
    | ok r =>
        rw [Process.do_load] at h
        cases ha : (UserPageTable.new).alloc st Process.get_stack_base PagePerm.RW with
        | error e => rw [ha] at h; simp only [except_bind_error] at h
                     exact absurd h (by simp)
        | ok x =>
            rw [ha] at h
            simp only [except_bind_ok] at h
            exact do_load_loop_counts _ _ _ _ _ r h

end Kern
